import Mathlib

/-!
Shallow embedding of `word_frequency.py` (subtitle word-frequency counter).

Strings are modelled as `List Char`.  Python's Unicode character classes
(`\w`, `\s`, `str.lower`, `str.isdigit`) are modelled exactly on the
Basic Latin and Latin-1 blocks (plus the Unicode whitespace and
bidirectional-mark code points that the program manipulates); characters
outside the modelled blocks are treated as non-alphanumeric, and
`str.lower` is the identity there.  Every definition follows the Python
source line by line.
-/

/-- Python `\d` / `str.isdigit`, modelled as the ASCII decimal digits. -/
def pyIsDigit (c : Char) : Prop := 0x30 ≤ c.toNat ∧ c.toNat ≤ 0x39

instance (c : Char) : Decidable (pyIsDigit c) := by unfold pyIsDigit; infer_instance

/-- Python `\s` / `str.isspace`: ASCII whitespace and the Unicode
whitespace code points. -/
def pyIsSpace (c : Char) : Prop :=
  (0x9 ≤ c.toNat ∧ c.toNat ≤ 0xD) ∨ (0x1C ≤ c.toNat ∧ c.toNat ≤ 0x1F) ∨
  c.toNat = 0x20 ∨ c.toNat = 0x85 ∨ c.toNat = 0xA0 ∨ c.toNat = 0x1680 ∨
  (0x2000 ≤ c.toNat ∧ c.toNat ≤ 0x200A) ∨ c.toNat = 0x2028 ∨ c.toNat = 0x2029 ∨
  c.toNat = 0x202F ∨ c.toNat = 0x205F ∨ c.toNat = 0x3000

instance (c : Char) : Decidable (pyIsSpace c) := by unfold pyIsSpace; infer_instance

/-- Python's Unicode alphanumeric class (letters, digits, numerics),
modelled on the Basic Latin and Latin-1 blocks: ASCII digits and letters,
the Latin-1 letters (including ß at U+00DF, excluding × U+00D7 and
÷ U+00F7), and the Latin-1 numeric and letter-like signs ª µ º ² ³ ¹ ¼ ½ ¾. -/
def pyIsAlnum (c : Char) : Prop :=
  (0x30 ≤ c.toNat ∧ c.toNat ≤ 0x39) ∨
  (0x41 ≤ c.toNat ∧ c.toNat ≤ 0x5A) ∨
  (0x61 ≤ c.toNat ∧ c.toNat ≤ 0x7A) ∨
  c.toNat = 0xAA ∨ c.toNat = 0xB5 ∨ c.toNat = 0xBA ∨
  (0xB2 ≤ c.toNat ∧ c.toNat ≤ 0xB3) ∨ c.toNat = 0xB9 ∨
  (0xBC ≤ c.toNat ∧ c.toNat ≤ 0xBE) ∨
  (0xC0 ≤ c.toNat ∧ c.toNat ≤ 0xFF ∧ c.toNat ≠ 0xD7 ∧ c.toNat ≠ 0xF7)

instance (c : Char) : Decidable (pyIsAlnum c) := by unfold pyIsAlnum; infer_instance

/-- Python `\w` (the class negated in `PUNCT_RE = [^\w\s]`):
alphanumeric or underscore. -/
def pyIsWordChar (c : Char) : Prop := pyIsAlnum c ∨ c = '_'

instance (c : Char) : Decidable (pyIsWordChar c) := by unfold pyIsWordChar; infer_instance

/-- The eight code points deleted by the `BIDI_MARKS` translation table:
U+200E, U+200F, U+202A..U+202E, U+FEFF. -/
def isBidiMark (c : Char) : Prop :=
  c.toNat = 0x200E ∨ c.toNat = 0x200F ∨
  (0x202A ≤ c.toNat ∧ c.toNat ≤ 0x202E) ∨ c.toNat = 0xFEFF

instance (c : Char) : Decidable (isBidiMark c) := by unfold isBidiMark; infer_instance

/-- Code-point-level model of Python `str.lower`: the ASCII uppercase
letters and the Latin-1 uppercase letters À..Þ (except ×) move down by
0x20; every other code point of the modelled Basic Latin and Latin-1
blocks is fixed, exactly as in CPython.  Outside those blocks this model
is the identity, whereas CPython lowers further scripts and expands
U+0130 to two characters — so statements about lowercasing are asserted
only on the modelled range. -/
def pyLowerNat (n : Nat) : Nat :=
  if 0x41 ≤ n ∧ n ≤ 0x5A then n + 0x20
  else if 0xC0 ≤ n ∧ n ≤ 0xDE ∧ n ≠ 0xD7 then n + 0x20
  else n

/-- Python `str.lower`, per character. -/
def pyLower (c : Char) : Char := Char.ofNat (pyLowerNat c.toNat)

/-- Deletion of the `BIDI_MARKS` characters, i.e. `line.translate(BIDI_MARKS)`. -/
def pyBidiDelete (s : List Char) : List Char :=
  s.filter (fun c => !(decide (isBidiMark c)))

/-- The substitution `PUNCT_RE.sub(" ", ...)` with `PUNCT_RE = [^\w\s]`:
each character that is neither a word character nor whitespace becomes
one space. -/
def punctSub (s : List Char) : List Char :=
  s.map (fun c => if pyIsWordChar c ∨ pyIsSpace c then c else ' ')

/-- The function `normalize_line`: strip bidi marks, lowercase, replace
punctuation by spaces. -/
def normalize_line (line : List Char) : List Char :=
  punctSub ((pyBidiDelete line).map pyLower)

/-- Python `str.lstrip()`: drop leading whitespace. -/
def pyLstrip (s : List Char) : List Char :=
  s.dropWhile (fun c => decide (pyIsSpace c))

/-- Python `str.strip()`: drop leading and trailing whitespace. -/
def pyStrip (s : List Char) : List Char :=
  ((pyLstrip s).reverse.dropWhile (fun c => decide (pyIsSpace c))).reverse

/-- Python `str.isdigit()`: non-empty and all digits. -/
def pyIsDigitStr (s : List Char) : Prop :=
  s ≠ [] ∧ ∀ c ∈ s, pyIsDigit c

instance (s : List Char) : Decidable (pyIsDigitStr s) := by
  unfold pyIsDigitStr; infer_instance

/-- Split a list at the first occurrence of `sep`, if any. -/
def splitFirst (sep : Char) : List Char → Option (List Char × List Char)
  | [] => none
  | c :: rest =>
    if c = sep then some ([], rest)
    else (splitFirst sep rest).map (fun p => (c :: p.1, p.2))

/-- Python `s.split(sep, maxsplit)` for a single-character separator:
split at the first `maxsplit` occurrences, keeping the remainder whole. -/
def pySplitMax (sep : Char) : Nat → List Char → List (List Char)
  | 0, s => [s]
  | n + 1, s =>
    match splitFirst sep s with
    | none => [s]
    | some (a, b) => a :: pySplitMax sep n b

/-- The tail `line.split(":", 1)[1]` for a line known to contain a colon
(the `Format:` / `Dialogue:` prefix guarantees one). -/
def afterFirstColon (s : List Char) : List Char :=
  match splitFirst ':' s with
  | some p => p.2
  | none => []

/-- Python `str.split()` with no arguments: split on runs of whitespace,
producing no empty tokens. -/
def splitWsAux : List Char → List Char → List (List Char)
  | [], acc => if acc = [] then [] else [acc.reverse]
  | c :: rest, acc =>
    if pyIsSpace c then
      if acc = [] then splitWsAux rest []
      else acc.reverse :: splitWsAux rest []
    else splitWsAux rest (c :: acc)

/-- Python `str.split()` with no arguments. -/
def pySplitWs (s : List Char) : List (List Char) := splitWsAux s []

/-- Match of `TIME_CODE_RE` at the start of a line (`re.match` anchors
only at the beginning, so trailing text is allowed).  Consumes
`\d{2}:\d{2}:\d{2},\d{3}\s+-->\s+\d{2}:\d{2}:\d{2},\d{3}`. -/
def takeDigits : Nat → List Char → Option (List Char)
  | 0, s => some s
  | _ + 1, [] => none
  | n + 1, c :: s => if pyIsDigit c then takeDigits n s else none

/-- Consume one expected literal character. -/
def expectChar (c : Char) : List Char → Option (List Char)
  | [] => none
  | x :: s => if x = c then some s else none

/-- Consume one or more whitespace characters (maximal munch; since the
following literal `-` is not whitespace, this agrees with the regex). -/
def takeWs1 : List Char → Option (List Char)
  | [] => none
  | c :: s =>
    if pyIsSpace c then some (s.dropWhile (fun d => decide (pyIsSpace d)))
    else none

/-- Consume one `HH:MM:SS,mmm` timecode. -/
def takeTimecode (s : List Char) : Option (List Char) :=
  (takeDigits 2 s).bind (expectChar ':') |>.bind (takeDigits 2)
    |>.bind (expectChar ':') |>.bind (takeDigits 2)
    |>.bind (expectChar ',') |>.bind (takeDigits 3)

/-- Whether `TIME_CODE_RE.match(line)` succeeds: the line starts with
`timecode \s+ --> \s+ timecode`. -/
def timecodeAtStart (s : List Char) : Prop :=
  ((takeTimecode s).bind takeWs1 |>.bind (expectChar '-')
    |>.bind (expectChar '-') |>.bind (expectChar '>')
    |>.bind takeWs1 |>.bind takeTimecode).isSome

instance (s : List Char) : Decidable (timecodeAtStart s) := by
  unfold timecodeAtStart; infer_instance

/-- The function `iter_srt_lines`, on the document's raw lines: strip
each line; skip empties, pure-digit index lines, and lines whose start
matches the timecode pattern; keep everything else. -/
def iter_srt_lines : List (List Char) → List (List Char)
  | [] => []
  | raw :: rest =>
    let line := pyStrip raw
    if line = [] then iter_srt_lines rest
    else if pyIsDigitStr line then iter_srt_lines rest
    else if timecodeAtStart line then iter_srt_lines rest
    else line :: iter_srt_lines rest

/-- Drop everything up to and including the first closing brace. -/
def dropThroughClose : List Char → List Char
  | [] => []
  | c :: rest => if c = '\x7d' then rest else dropThroughClose rest

/-- Fuelled scan for `ASS_OVERRIDE_RE.sub("", text)` with the non-greedy
pattern: at an opening brace with a later closing brace, delete through
the first closing brace; an unclosed opening brace is kept. -/
def stripOverridesAux : Nat → List Char → List Char
  | 0, s => s
  | _ + 1, [] => []
  | fuel + 1, c :: rest =>
    if c = '\x7b' then
      if rest.contains '\x7d' then stripOverridesAux fuel (dropThroughClose rest)
      else c :: stripOverridesAux fuel rest
    else c :: stripOverridesAux fuel rest

/-- The substitution `ASS_OVERRIDE_RE.sub("", text)`. -/
def stripOverrides (s : List Char) : List Char := stripOverridesAux s.length s

/-- Python `text.replace("\X", " ")` for a two-character escape, scanning
left to right over non-overlapping occurrences. -/
def replaceEsc (t : Char) : List Char → List Char
  | [] => []
  | [c] => [c]
  | '\\' :: c :: rest =>
    if c = t then ' ' :: replaceEsc t rest
    else '\\' :: replaceEsc t (c :: rest)
  | c :: rest => c :: replaceEsc t rest

/-- Markup removal applied to an extracted ASS text field: strip override
tags, then replace the escapes in source order. -/
def cleanupAssText (s : List Char) : List Char :=
  replaceEsc 'h' (replaceEsc 'n' (replaceEsc 'N' (stripOverrides s)))

/-- Parser state of `iter_ass_lines`: the mutable `text_index` and
`field_count` locals. -/
structure AssState where
  textIndex : Option Nat
  fieldCount : Option Nat
  deriving Repr, DecidableEq

/-- The field list read from a `Format:` line:
`[field.strip() for field in line.split(":", 1)[1].split(",")]`. -/
def parseFormatFields (line : List Char) : List (List Char) :=
  ((afterFirstColon line).splitOn ',').map pyStrip

/-- The payload of a `Dialogue:` line: `line.split(":", 1)[1].lstrip()`. -/
def dialoguePayload (line : List Char) : List Char :=
  pyLstrip (afterFirstColon line)

/-- Text-field selection of `iter_ass_lines` for one dialogue payload,
given the current state (`if field_count:` is Python truthiness, so a
`some 0` count also falls back to the default 10-field split). -/
def selectDialogueText (st : AssState) (payload : List Char) : List Char :=
  match st.fieldCount with
  | some fc =>
    if fc ≠ 0 then
      let parts := pySplitMax ',' (fc - 1) payload
      match st.textIndex with
      | some i => if i < parts.length then parts.getD i [] else parts.getLastD []
      | none => parts.getLastD []
    else (pySplitMax ',' 9 payload).getLastD []
  | none => (pySplitMax ',' 9 payload).getLastD []

/-- One loop iteration of `iter_ass_lines`: new state and emitted lines. -/
def assStep (st : AssState) (raw : List Char) : AssState × List (List Char) :=
  let line := pyStrip raw
  if line = [] then (st, [])
  else if ("Format:".toList).isPrefixOf line then
    let fields := parseFormatFields line
    (⟨if fields.contains ("Text".toList) then some (fields.indexOf ("Text".toList))
      else st.textIndex,
      some fields.length⟩, [])
  else if ("Dialogue:".toList).isPrefixOf line then
    (st, [cleanupAssText (selectDialogueText st (dialoguePayload line))])
  else (st, [])

/-- Run the `iter_ass_lines` loop from a given state. -/
def runAss (st : AssState) : List (List Char) → List (List Char)
  | [] => []
  | raw :: rest =>
    let p := assStep st raw
    p.2 ++ runAss p.1 rest

/-- The function `iter_ass_lines`, starting with no recorded schema. -/
def iter_ass_lines (doc : List (List Char)) : List (List Char) :=
  runAss ⟨none, none⟩ doc

/-- One `counts[word] += 1` on the `Counter` (a Python dict preserves
insertion order; a new key is appended at the end with count 1). -/
def counterIncr : List (List Char × Nat) → List Char → List (List Char × Nat)
  | [], w => [(w, 1)]
  | (k, v) :: rest, w =>
    if k = w then (k, v + 1) :: rest else (k, v) :: counterIncr rest w

/-- The count stored for a word (0 when absent). -/
def counterGet (t : List (List Char × Nat)) (w : List Char) : Nat :=
  ((t.lookup w).getD 0)

/-- The whitespace tokens of one dialogue line after normalization. -/
def tokensOfLine (line : List Char) : List (List Char) :=
  pySplitWs (normalize_line line)

/-- The function `count_words`: normalize each line, split on whitespace,
increment the counter per token. -/
def count_words (lines : List (List Char)) : List (List Char × Nat) :=
  lines.foldl (fun t line => (tokensOfLine line).foldl counterIncr t) []

/-- Sum of all counts in a frequency table. -/
def sumCounts (t : List (List Char × Nat)) : Nat :=
  (t.map Prod.snd).sum

/-- Python string `≤`: lexicographic comparison by code point. -/
def strLe : List Char → List Char → Bool
  | [], _ => true
  | _ :: _, [] => false
  | a :: as, b :: bs =>
    if a.toNat < b.toNat then true
    else if b.toNat < a.toNat then false
    else strLe as bs

/-- The sort key of `write_csv` (`key=lambda item: (-item[1], item[0])`,
ascending): higher count first, ties by word in code-point order. -/
def itemLe (x y : List Char × Nat) : Prop :=
  y.2 < x.2 ∨ (x.2 = y.2 ∧ strLe x.1 y.1 = true)

instance : DecidableRel itemLe := fun x y => by unfold itemLe; infer_instance

/-- The row order written by `write_csv`: Python `sorted` is a stable
sort, and stable sorts agree, so insertion sort computes the same list. -/
def sorted_items (counts : List (List Char × Nat)) : List (List Char × Nat) :=
  List.insertionSort itemLe counts

instance : IsTotal (List Char × Nat) itemLe where
  total := by
    have hstr : ∀ x y : List Char, strLe x y = true ∨ strLe y x = true := by
      intro x
      induction x with
      | nil => intro y; exact Or.inl rfl
      | cons a as ih =>
        intro y
        cases y with
        | nil => exact Or.inr rfl
        | cons b bs =>
          by_cases h1 : a.toNat < b.toNat
          · exact Or.inl (by simp [strLe, h1])
          · by_cases h2 : b.toNat < a.toNat
            · exact Or.inr (by simp [strLe, h2])
            · rcases ih bs with h | h
              · exact Or.inl (by simp [strLe, h1, h2, h])
              · exact Or.inr (by simp [strLe, h1, h2, h])
    intro a b
    unfold itemLe
    by_cases h : a.2 = b.2
    · rcases hstr a.1 b.1 with hs | hs
      · exact Or.inl (Or.inr ⟨h, hs⟩)
      · exact Or.inr (Or.inr ⟨h.symm, hs⟩)
    · by_cases h2 : b.2 < a.2
      · exact Or.inl (Or.inl h2)
      · exact Or.inr (Or.inl (by omega))

instance : IsTrans (List Char × Nat) itemLe where
  trans := by
    have hstr : ∀ x y z : List Char,
        strLe x y = true → strLe y z = true → strLe x z = true := by
      intro x
      induction x with
      | nil => intro y z _ _; rfl
      | cons a as ih =>
        intro y z hxy hyz
        cases y with
        | nil => simp [strLe] at hxy
        | cons b bs =>
          cases z with
          | nil => simp [strLe] at hyz
          | cons c cs =>
            by_cases h1 : a.toNat < b.toNat
            · by_cases h2 : b.toNat < c.toNat
              · simp [strLe, show a.toNat < c.toNat by omega]
              · by_cases h3 : c.toNat < b.toNat
                · rw [strLe] at hyz; simp [h2, h3] at hyz
                · simp [strLe, show a.toNat < c.toNat by omega]
            · by_cases h3 : b.toNat < a.toNat
              · rw [strLe] at hxy; simp [h1, h3] at hxy
              · rw [strLe] at hxy
                simp [h1, h3] at hxy
                by_cases h2 : b.toNat < c.toNat
                · simp [strLe, show a.toNat < c.toNat by omega]
                · by_cases h4 : c.toNat < b.toNat
                  · rw [strLe] at hyz; simp [h2, h4] at hyz
                  · rw [strLe] at hyz
                    simp [h2, h4] at hyz
                    rw [strLe]
                    simp [show ¬ a.toNat < c.toNat by omega,
                      show ¬ c.toNat < a.toNat by omega]
                    exact ih bs cs hxy hyz
    intro a b c hab hbc
    unfold itemLe at *
    rcases hab with h | ⟨he, hs⟩ <;> rcases hbc with h2 | ⟨he2, hs2⟩
    · exact Or.inl (by omega)
    · exact Or.inl (by omega)
    · exact Or.inl (by omega)
    · exact Or.inr ⟨by omega, hstr _ _ _ hs hs2⟩

instance : IsAntisymm (List Char × Nat) itemLe where
  antisymm := by
    have hchar : ∀ a b : Char, a.toNat = b.toNat → a = b := by
      intro a b h
      rw [← Char.ofNat_toNat a, ← Char.ofNat_toNat b, h]
    have hstr : ∀ x y : List Char, strLe x y = true → strLe y x = true → x = y := by
      intro x
      induction x with
      | nil =>
        intro y _ hyx
        cases y with
        | nil => rfl
        | cons b bs => simp [strLe] at hyx
      | cons a as ih =>
        intro y hxy hyx
        cases y with
        | nil => simp [strLe] at hxy
        | cons b bs =>
          by_cases h1 : a.toNat < b.toNat
          · rw [strLe] at hyx
            simp [show ¬ b.toNat < a.toNat by omega, h1] at hyx
          · by_cases h2 : b.toNat < a.toNat
            · rw [strLe] at hxy; simp [h1, h2] at hxy
            · rw [strLe] at hxy
              rw [strLe] at hyx
              simp [h1, h2] at hxy hyx
              rw [hchar a b (by omega), ih bs hxy hyx]
    intro a b hab hba
    unfold itemLe at hab hba
    obtain ⟨a1, a2⟩ := a
    obtain ⟨b1, b2⟩ := b
    simp only [Prod.mk.injEq]
    rcases hab with h | ⟨he, hs⟩
    · rcases hba with h2 | ⟨he2, _⟩
      · exact absurd h2 (by simp at *; omega)
      · exact absurd h (by simp at *; omega)
    · rcases hba with h2 | ⟨he2, hs2⟩
      · exact absurd h2 (by simp at *; omega)
      · exact ⟨hstr _ _ hs hs2, he⟩

/-- A filesystem path as its list of components (`pathlib.PurePath.parts`). -/
structure PyPath where
  components : List (List Char)
  deriving Repr, DecidableEq

/-- The final path component (`Path.name`). -/
def pathName (p : PyPath) : List Char := p.components.getLastD []

/-- Index of the last dot in a name (`name.rfind(".")`), if any. -/
def rfindDotAux : List Char → Nat → Option Nat → Option Nat
  | [], _, acc => acc
  | c :: rest, i, acc => rfindDotAux rest (i + 1) (if c = '.' then some i else acc)

/-- Index of the last dot in a name, if any. -/
def rfindDot (n : List Char) : Option Nat := rfindDotAux n 0 none

/-- The extension of a name (`PurePath.suffix`): from the last dot to
the end, provided the dot is neither the first nor the last character. -/
def suffixOfName (n : List Char) : List Char :=
  match rfindDot n with
  | some i => if 0 < i ∧ i + 1 < n.length then n.drop i else []
  | none => []

/-- The extension of a path (`Path.suffix`). -/
def pathSuffix (p : PyPath) : List Char := suffixOfName (pathName p)

/-- The name without its extension (`Path.stem`). -/
def pathStem (p : PyPath) : List Char :=
  (pathName p).take ((pathName p).length - (suffixOfName (pathName p)).length)

/-- The default output file name `f"{input_path.stem}_word_frequency.csv"`. -/
def defaultOutputName (input : PyPath) : List Char :=
  pathStem input ++ ("_word_frequency.csv".toList)

/-- The function `build_output_path`.  The filesystem facts
`output.exists()` and `output.is_dir()` are external state, passed in as
the two booleans (they are only consulted for the explicit output). -/
def build_output_path (input : PyPath) (output : Option PyPath)
    (outOnDisk outIsDir : Bool) : PyPath :=
  let defaultName := defaultOutputName input
  match output with
  | none => ⟨input.components.dropLast ++ [defaultName]⟩
  | some out =>
    if outOnDisk && outIsDir then ⟨out.components ++ [defaultName]⟩
    else if (pathSuffix out).map pyLower = (".csv".toList) then out
    else ⟨out.components ++ [defaultName]⟩

/-- C2: on the header `Format: Layer, Start, End, Text` followed by the
dialogue `Dialogue: 0,0:00:01.00,0:00:02.00,Hi, {\pos(1,2)}there\Nfriend`,
the parser extracts exactly `Hi, there friend` (override tag stripped,
`\N` replaced by a space, the embedded comma preserved in the final
field), and counting yields hi, there, friend with count 1 each. -/
theorem ass_scenario_extraction_counts :
    iter_ass_lines [("Format: Layer, Start, End, Text".toList),
        ("Dialogue: 0,0:00:01.00,0:00:02.00,Hi, \x7b\\pos(1,2)\x7dthere\\Nfriend".toList)]
      = [("Hi, there friend".toList)] ∧
    count_words (iter_ass_lines [("Format: Layer, Start, End, Text".toList),
        ("Dialogue: 0,0:00:01.00,0:00:02.00,Hi, \x7b\\pos(1,2)\x7dthere\\Nfriend".toList)])
      = [(("hi".toList), 1), (("there".toList), 1), (("friend".toList), 1)] := by
  exact ⟨by decide, by decide⟩

/-- C1 counterexample: after a first header declaring `Text` (position 3)
and a second header `Format: A, B, C, D, E` without a `Text` field, the
dialogue `Dialogue: 1,2,3,4,5,6,7` is split into five parts
`1 / 2 / 3 / 4 / 5,6,7` and the stale position 3 from the first header
selects `4` — not the last split part `5,6,7` that the claim requires. -/
theorem iter_ass_header_merge_cex :
    iter_ass_lines [("Format: Layer, Start, End, Text".toList),
        ("Format: A, B, C, D, E".toList), ("Dialogue: 1,2,3,4,5,6,7".toList)]
      = [("4".toList)] ∧
    iter_ass_lines [("Format: Layer, Start, End, Text".toList),
        ("Format: A, B, C, D, E".toList), ("Dialogue: 1,2,3,4,5,6,7".toList)]
      ≠ [("5,6,7".toList)] := by
  exact ⟨by decide, by decide⟩

/-- C3 counterexample: the underscore is neither alphanumeric nor
whitespace, yet it survives normalization unchanged (the source pattern
`[^\w\s]` exempts `\w`, which includes the underscore). -/
theorem normalize_underscore_cex :
    normalize_line ("a_b".toList) = ("a_b".toList) ∧
    ¬ pyIsAlnum '_' ∧ ¬ pyIsSpace '_' ∧
    normalize_line ("a_b".toList) ≠ ("a b".toList) := by
  exact ⟨by decide, by decide, by decide, by decide⟩

/-- C4 counterexample: a non-empty line that begins with a full timecode
pattern but carries trailing text is discarded by `iter_srt_lines`
(`re.match` anchors only at the start), not emitted as the claim
requires. -/
theorem srt_timecode_trailing_cex :
    iter_srt_lines [("00:00:01,000 --> 00:00:02,000 X".toList)] = [] ∧
    iter_srt_lines [("00:00:01,000 --> 00:00:02,000 X".toList)]
      ≠ [("00:00:01,000 --> 00:00:02,000 X".toList)] := by
  exact ⟨by decide, by decide⟩

/-- C9 counterexample: `normalize_line` uses per-character `str.lower`,
not full case-folding: U+00DF ß is left unchanged rather than folded to
`ss`. -/
theorem normalize_sharp_s_cex :
    normalize_line ("ß".toList) = ("ß".toList) ∧
    normalize_line ("ß".toList) ≠ ("ss".toList) := by
  exact ⟨by decide, by decide⟩

/-- Round-trip for valid code points. -/
theorem char_toNat_ofNat {n : Nat} (h : n.isValidChar) : (Char.ofNat n).toNat = n := by
  simp [Char.ofNat, h, Char.ofNatAux, Char.toNat, UInt32.toNat, BitVec.toNat_ofNatLt]

/-- Characters are determined by their code point. -/
theorem char_eq_of_toNat {a b : Char} (h : a.toNat = b.toNat) : a = b := by
  have ha := Char.ofNat_toNat a
  have hb := Char.ofNat_toNat b
  rw [← ha, ← hb, h]

/-- Lowercasing stays within the valid code points. -/
theorem pyLowerNat_valid {n : Nat} (h : Nat.isValidChar n) :
    Nat.isValidChar (pyLowerNat n) := by
  unfold Nat.isValidChar at *
  unfold pyLowerNat
  split_ifs <;> omega

/-- The code point of a lowered character. -/
theorem toNat_pyLower (c : Char) : (pyLower c).toNat = pyLowerNat c.toNat :=
  char_toNat_ofNat (pyLowerNat_valid c.valid)

/-- Lowercasing a code point twice is the same as once. -/
theorem pyLowerNat_idem (n : Nat) : pyLowerNat (pyLowerNat n) = pyLowerNat n := by
  unfold pyLowerNat
  split_ifs <;> omega

/-- Python `str.lower` is idempotent per character. -/
theorem pyLower_idem (c : Char) : pyLower (pyLower c) = pyLower c := by
  apply char_eq_of_toNat
  rw [toNat_pyLower, toNat_pyLower, pyLowerNat_idem]

/-- No word character and no whitespace character is a bidi mark. -/
theorem not_bidi_of_word_or_space {c : Char} (h : pyIsWordChar c ∨ pyIsSpace c) :
    ¬ isBidiMark c := by
  intro hb
  rcases h with hw | hs
  · rcases hw with ha | rfl
    · unfold pyIsAlnum at ha
      unfold isBidiMark at hb
      omega
    · exact absurd hb (by decide)
  · unfold pyIsSpace at hs
    unfold isBidiMark at hb
    omega

/-- Mapping a function that fixes every element of a list is the identity. -/
theorem map_eq_self {α : Type} {f : α → α} {l : List α} (h : ∀ a ∈ l, f a = a) :
    l.map f = l := by
  induction l with
  | nil => rfl
  | cons a l ih => simp [h a (by simp), ih (fun b hb => h b (by simp [hb]))]

/-- Every character emitted by `normalize_line` is a word character or
whitespace, and is already lowercase. -/
theorem mem_normalize_props {s : List Char} {c : Char} (h : c ∈ normalize_line s) :
    (pyIsWordChar c ∨ pyIsSpace c) ∧ pyLower c = c := by
  unfold normalize_line punctSub at h
  obtain ⟨d, hd, rfl⟩ := List.mem_map.1 h
  obtain ⟨a, _, rfl⟩ := List.mem_map.1 hd
  split_ifs with hcond
  · exact ⟨hcond, pyLower_idem a⟩
  · exact ⟨Or.inr (by decide), by decide⟩

/-- A string of lowercase word-or-space characters is fixed by the
normalizer. -/
theorem normalize_fixes {t : List Char}
    (h : ∀ c ∈ t, (pyIsWordChar c ∨ pyIsSpace c) ∧ pyLower c = c) :
    normalize_line t = t := by
  unfold normalize_line
  have h1 : pyBidiDelete t = t := by
    apply List.filter_eq_self.mpr
    intro a ha
    simp only [Bool.not_eq_true', decide_eq_false_iff_not]
    exact not_bidi_of_word_or_space (h a ha).1
  rw [h1]
  have h2 : t.map pyLower = t := map_eq_self (fun a ha => (h a ha).2)
  rw [h2]
  unfold punctSub
  apply map_eq_self
  intro a ha
  simp [(h a ha).1]

/-- C8: normalization is idempotent — normalizing the normalizer's own
output returns it unchanged. -/
theorem normalize_line_idempotent (s : List Char) :
    normalize_line (normalize_line s) = normalize_line s :=
  normalize_fixes (fun _ hc => mem_normalize_props hc)

/-- C3 amended: the punctuation pass replaces every character that is
neither a word character (alphanumeric or underscore) nor whitespace, so
every character surviving normalization is a word character or
whitespace — the underscore, being a word character, survives. -/
theorem normalize_output_word_or_space (s : List Char) (c : Char)
    (h : c ∈ normalize_line s) : pyIsWordChar c ∨ pyIsSpace c :=
  (mem_normalize_props h).1

/-- Witness for the amended C3 statement at a concrete input. -/
theorem normalize_output_word_or_space_witness :
    'h' ∈ normalize_line ("Hi!".toList) ∧ (pyIsWordChar 'h' ∨ pyIsSpace 'h') :=
  ⟨by decide, normalize_output_word_or_space ("Hi!".toList) 'h' (by decide)⟩

/-- C9 amended: the normalizer lowercases with `str.lower`, not full
case-folding — ß is left unchanged rather than folded to `ss` — and on
the Basic Latin and Latin-1 blocks, where `str.lower` is a one-to-one
per-character mapping (its only expanding case, U+0130, lies outside),
normalization yields exactly one character per character remaining after
bidi-mark removal.  The statement is deliberately restricted to that
range: CPython's `str.lower` expands U+0130 to two characters, so length
preservation does not hold of arbitrary input. -/
theorem normalize_latin1_no_expansion (s : List Char)
    (_latin1 : ∀ c ∈ s, c.toNat ≤ 0xFF) :
    (normalize_line s).length = (pyBidiDelete s).length := by
  unfold normalize_line punctSub
  simp

/-- Witness for the amended C9 statement at a concrete Latin-1 input. -/
theorem normalize_latin1_no_expansion_witness :
    (∀ c ∈ ("Straße!".toList), c.toNat ≤ 0xFF) ∧
    (normalize_line ("Straße!".toList)).length
      = (pyBidiDelete ("Straße!".toList)).length :=
  ⟨by decide, normalize_latin1_no_expansion ("Straße!".toList) (by decide)⟩

/-- Incrementing a counter raises the total count by exactly one. -/
theorem sumCounts_counterIncr (t : List (List Char × Nat)) (w : List Char) :
    sumCounts (counterIncr t w) = sumCounts t + 1 := by
  induction t with
  | nil => rfl
  | cons p rest ih =>
    obtain ⟨k, v⟩ := p
    by_cases hkw : k = w <;> simp [counterIncr, hkw, sumCounts] <;>
      simp [sumCounts] at ih <;> omega

/-- Folding a token list over the counter adds its length to the total. -/
theorem sumCounts_foldl_tokens (ws : List (List Char)) (t : List (List Char × Nat)) :
    sumCounts (ws.foldl counterIncr t) = sumCounts t + ws.length := by
  induction ws generalizing t with
  | nil => simp
  | cons w ws ih =>
    rw [List.foldl_cons, ih, sumCounts_counterIncr]
    simp [List.length_cons]
    omega

/-- Counting lines from any starting table adds the total token count. -/
theorem sumCounts_count_words_aux (lines : List (List Char))
    (t : List (List Char × Nat)) :
    sumCounts (lines.foldl (fun t line => (tokensOfLine line).foldl counterIncr t) t)
      = sumCounts t + (lines.map (fun l => (tokensOfLine l).length)).sum := by
  induction lines generalizing t with
  | nil => simp
  | cons l lines ih =>
    rw [List.foldl_cons, ih, sumCounts_foldl_tokens]
    simp
    omega

/-- C6: the sum of all counts in the frequency table equals the total
number of whitespace-delimited tokens across all normalized lines. -/
theorem count_words_sum_tokens (lines : List (List Char)) :
    sumCounts (count_words lines)
      = (lines.map (fun l => (tokensOfLine l).length)).sum := by
  unfold count_words
  rw [sumCounts_count_words_aux]
  simp [sumCounts]

/-- Looking up after one increment: the incremented word gains one. -/
theorem counterGet_counterIncr (t : List (List Char × Nat)) (w x : List Char) :
    counterGet (counterIncr t w) x = counterGet t x + (if x = w then 1 else 0) := by
  induction t with
  | nil =>
    by_cases hxw : x = w
    · subst hxw; simp [counterIncr, counterGet, List.lookup]
    · simp [counterIncr, counterGet, List.lookup, beq_eq_false_iff_ne.mpr hxw, hxw]
  | cons p rest ih =>
    obtain ⟨k, v⟩ := p
    by_cases hkw : k = w
    · subst hkw
      by_cases hxk : x = k
      · subst hxk; simp [counterIncr, counterGet, List.lookup]
      · simp [counterIncr, counterGet, List.lookup, beq_eq_false_iff_ne.mpr hxk, hxk]
    · by_cases hxk : x = k
      · subst hxk
        simp [counterIncr, counterGet, List.lookup, hkw]
      · simp [counterIncr, counterGet, List.lookup, beq_eq_false_iff_ne.mpr hxk, hkw]
        simpa [counterGet] using ih

/-- Folding a token list over the counter adds each token's multiplicity. -/
theorem counterGet_foldl (ws : List (List Char)) (t : List (List Char × Nat))
    (x : List Char) :
    counterGet (ws.foldl counterIncr t) x = counterGet t x + ws.count x := by
  induction ws generalizing t with
  | nil => simp
  | cons w ws ih =>
    rw [List.foldl_cons, ih, counterGet_counterIncr]
    simp only [List.count_cons, beq_iff_eq]
    by_cases hxw : x = w
    · subst hxw; simp; omega
    · simp [hxw, show ¬ w = x from fun e => hxw e.symm]

/-- Counting lines from any starting table adds each word's multiplicity
among all tokens of all lines. -/
theorem counterGet_count_words_aux (lines : List (List Char))
    (t : List (List Char × Nat)) (x : List Char) :
    counterGet (lines.foldl (fun t line => (tokensOfLine line).foldl counterIncr t) t) x
      = counterGet t x + (lines.flatMap tokensOfLine).count x := by
  induction lines generalizing t with
  | nil => simp
  | cons l lines ih =>
    rw [List.foldl_cons, ih, counterGet_foldl]
    simp [List.count_append]
    omega

/-- Permutations preserve the multiplicity of every element. -/
theorem perm_count {l₁ l₂ : List (List Char)} (h : List.Perm l₁ l₂)
    (x : List Char) : l₁.count x = l₂.count x := by
  induction h with
  | nil => rfl
  | cons a _ ih => simp [List.count_cons, ih]
  | swap a b l => simp [List.count_cons]; omega
  | trans _ _ ih₁ ih₂ => rw [ih₁, ih₂]

/-- C7: counting is order-independent — permuting the dialogue lines
yields a frequency table equal as a mapping. -/
theorem count_words_perm_invariant (l₁ l₂ : List (List Char))
    (h : List.Perm l₁ l₂) (w : List Char) :
    counterGet (count_words l₁) w = counterGet (count_words l₂) w := by
  unfold count_words
  rw [counterGet_count_words_aux, counterGet_count_words_aux,
    perm_count (h.flatMap_right tokensOfLine) w]

/-- Witness for C7 at a concrete permutation. -/
theorem count_words_perm_invariant_witness :
    List.Perm [("b a".toList), ("a".toList)] [("a".toList), ("b a".toList)] ∧
    counterGet (count_words [("b a".toList), ("a".toList)]) ("a".toList)
      = counterGet (count_words [("a".toList), ("b a".toList)]) ("a".toList) :=
  ⟨by decide, count_words_perm_invariant _ _ (by decide) _⟩

/-- C5: the exported rows are sorted by count descending with ties by
word ascending in code-point order, and the ordering is deterministic:
any two tables equal as multisets of entries export identically. -/
theorem write_csv_sorted_deterministic (counts counts' : List (List Char × Nat)) :
    List.Sorted itemLe (sorted_items counts) ∧
    (List.Perm counts counts' → sorted_items counts = sorted_items counts') := by
  constructor
  · exact List.sorted_insertionSort itemLe counts
  · intro hp
    exact List.eq_of_perm_of_sorted
      ((List.perm_insertionSort itemLe counts).trans
        (hp.trans (List.perm_insertionSort itemLe counts').symm))
      (List.sorted_insertionSort itemLe counts)
      (List.sorted_insertionSort itemLe counts')

/-- Witness for C5 at a concrete table. -/
theorem write_csv_sorted_deterministic_witness :
    List.Sorted itemLe (sorted_items [(("b".toList), 1), (("a".toList), 2)]) ∧
    sorted_items [(("b".toList), 1), (("a".toList), 2)]
      = sorted_items [(("a".toList), 2), (("b".toList), 1)] :=
  ⟨(write_csv_sorted_deterministic [(("b".toList), 1), (("a".toList), 2)]
      [(("a".toList), 2), (("b".toList), 1)]).1,
    (write_csv_sorted_deterministic [(("b".toList), 1), (("a".toList), 2)]
      [(("a".toList), 2), (("b".toList), 1)]).2 (by decide)⟩

/-- C10: an explicit destination that does not exist on disk and whose
suffix is not `.csv` (case-insensitively) is treated as a directory: the
output is the destination joined with the default name, never the
destination itself. -/
theorem build_output_path_nonexistent_non_csv (input out : PyPath) (d : Bool)
    (h : (pathSuffix out).map pyLower ≠ (".csv".toList)) :
    build_output_path input (some out) false d
        = ⟨out.components ++ [defaultOutputName input]⟩ ∧
    build_output_path input (some out) false d ≠ out := by
  have heq : build_output_path input (some out) false d
      = ⟨out.components ++ [defaultOutputName input]⟩ := by
    have h' : List.map pyLower (pathSuffix out) ≠ ['.', 'c', 's', 'v'] := by
      simpa using h
    unfold build_output_path
    simp [h']
  refine ⟨heq, ?_⟩
  rw [heq]
  intro he
  have hc : out.components ++ [defaultOutputName input] = out.components :=
    congrArg PyPath.components he
  have hlen := congrArg List.length hc
  simp at hlen

/-- Witness for C10 at a concrete destination. -/
theorem build_output_path_nonexistent_non_csv_witness :
    (pathSuffix ⟨[("out".toList), ("dir.txt".toList)]⟩).map pyLower ≠ (".csv".toList) ∧
    build_output_path ⟨[("movie.srt".toList)]⟩
        (some ⟨[("out".toList), ("dir.txt".toList)]⟩) false false
      = ⟨[("out".toList), ("dir.txt".toList),
          ("movie_word_frequency.csv".toList)]⟩ ∧
    build_output_path ⟨[("movie.srt".toList)]⟩
        (some ⟨[("out".toList), ("dir.txt".toList)]⟩) false false
      ≠ ⟨[("out".toList), ("dir.txt".toList)]⟩ := by
  refine ⟨by decide, ?_, ?_⟩
  · have := (build_output_path_nonexistent_non_csv ⟨[("movie.srt".toList)]⟩
      ⟨[("out".toList), ("dir.txt".toList)]⟩ false (by decide)).1
    rw [this]
    decide
  · exact (build_output_path_nonexistent_non_csv ⟨[("movie.srt".toList)]⟩
      ⟨[("out".toList), ("dir.txt".toList)]⟩ false (by decide)).2

/-- C4 amended: a stripped line is discarded as a timing line whenever it
begins with the timecode pattern (trailing text allowed, as `re.match`
anchors only at the start); every other non-empty, non-pure-digit line is
emitted as its stripped text, one `DialogueLine` per input line. -/
theorem iter_srt_filter_characterization (doc : List (List Char)) :
    iter_srt_lines doc
      = (doc.map pyStrip).filter
          (fun l => !(decide (l = [])) && !(decide (pyIsDigitStr l))
            && !(decide (timecodeAtStart l))) := by
  induction doc with
  | nil => rfl
  | cons raw rest ih =>
    by_cases e1 : pyStrip raw = []
    · simp [iter_srt_lines, e1, ih, List.filter_cons]
    · by_cases e2 : pyIsDigitStr (pyStrip raw)
      · simp [iter_srt_lines, e1, e2, ih, List.filter_cons]
      · by_cases e3 : timecodeAtStart (pyStrip raw)
        · simp [iter_srt_lines, e1, e2, e3, ih, List.filter_cons]
        · simp [iter_srt_lines, e1, e2, e3, ih, List.filter_cons]

/-- A line with the `Format:` prefix is non-empty. -/
theorem format_prefix_ne_nil {l : List Char}
    (h : ("Format:".toList).isPrefixOf l = true) : l ≠ [] := by
  intro e
  subst e
  exact absurd h (by decide)

/-- A line with the `Dialogue:` prefix is non-empty. -/
theorem dialogue_prefix_ne_nil {l : List Char}
    (h : ("Dialogue:".toList).isPrefixOf l = true) : l ≠ [] := by
  intro e
  subst e
  exact absurd h (by decide)

/-- A line with the `Dialogue:` prefix does not have the `Format:` prefix. -/
theorem dialogue_not_format {l : List Char}
    (h : ("Dialogue:".toList).isPrefixOf l = true) :
    ("Format:".toList).isPrefixOf l = false := by
  cases l with
  | nil => exact absurd h (by decide)
  | cons c rest =>
    by_cases hc : c = 'D'
    · subst hc
      show ('F' == 'D' && ("ormat:".toList).isPrefixOf rest) = false
      simp
    · exfalso
      have hD : ('D' == c && ("ialogue:".toList).isPrefixOf rest) = true := h
      rw [beq_eq_false_iff_ne.mpr (fun e => hc e.symm)] at hD
      simp at hD

/-- Evaluation of one parser step on a `Format:` line. -/
theorem assStep_format (st : AssState) (raw : List Char)
    (hf : ("Format:".toList).isPrefixOf (pyStrip raw) = true) :
    assStep st raw
      = (⟨if (parseFormatFields (pyStrip raw)).contains ("Text".toList)
            then some ((parseFormatFields (pyStrip raw)).indexOf ("Text".toList))
            else st.textIndex,
          some (parseFormatFields (pyStrip raw)).length⟩, []) := by
  simp only [assStep]
  rw [if_neg (format_prefix_ne_nil hf), if_pos hf]

/-- Evaluation of one parser step on a `Dialogue:` line. -/
theorem assStep_dialogue (st : AssState) (raw : List Char)
    (hd : ("Dialogue:".toList).isPrefixOf (pyStrip raw) = true) :
    assStep st raw
      = (st, [cleanupAssText (selectDialogueText st (dialoguePayload (pyStrip raw)))]) := by
  simp only [assStep]
  rw [if_neg (dialogue_prefix_ne_nil hd),
    if_neg (show ¬ (("Format:".toList).isPrefixOf (pyStrip raw) = true) from
      fun hcontra => by
        rw [dialogue_not_format hd] at hcontra
        exact absurd hcontra (by decide)),
    if_pos hd]

/-- C1 amended: a new header always replaces the recorded field count,
but replaces the recorded `Text` position only when it itself declares a
`Text` field.  For a document whose first header declares `Text` at
position `i` and whose second header does not declare `Text`, a dialogue
line after both headers is split by the second header's field count while
the text field is still selected at the first header's position `i`
whenever `i` is within range of the split parts — not the last split
part that a full schema replacement would give. -/
theorem iter_ass_stale_text_index
    (h1 h2 d : List Char) (i fc2 : Nat)
    (hf1 : ("Format:".toList).isPrefixOf (pyStrip h1) = true)
    (hT1c : (parseFormatFields (pyStrip h1)).contains ("Text".toList) = true)
    (hT1i : (parseFormatFields (pyStrip h1)).indexOf ("Text".toList) = i)
    (hf2 : ("Format:".toList).isPrefixOf (pyStrip h2) = true)
    (hT2 : (parseFormatFields (pyStrip h2)).contains ("Text".toList) = false)
    (hlen2 : (parseFormatFields (pyStrip h2)).length = fc2)
    (hfc2 : fc2 ≠ 0)
    (hd : ("Dialogue:".toList).isPrefixOf (pyStrip d) = true)
    (hrange : i < (pySplitMax ',' (fc2 - 1) (dialoguePayload (pyStrip d))).length) :
    iter_ass_lines [h1, h2, d]
      = [cleanupAssText
          ((pySplitMax ',' (fc2 - 1) (dialoguePayload (pyStrip d))).getD i [])] := by
  have s1 : assStep ⟨none, none⟩ h1
      = (⟨some i, some (parseFormatFields (pyStrip h1)).length⟩, []) := by
    rw [assStep_format ⟨none, none⟩ h1 hf1, hT1c, hT1i]
    simp
  have s2 : assStep ⟨some i, some (parseFormatFields (pyStrip h1)).length⟩ h2
      = (⟨some i, some fc2⟩, []) := by
    rw [assStep_format _ h2 hf2, hT2, hlen2]
    simp
  have s3 : assStep ⟨some i, some fc2⟩ d
      = (⟨some i, some fc2⟩,
          [cleanupAssText
            ((pySplitMax ',' (fc2 - 1) (dialoguePayload (pyStrip d))).getD i [])]) := by
    rw [assStep_dialogue _ d hd]
    unfold selectDialogueText
    simp [hfc2, hrange]
  unfold iter_ass_lines
  simp [runAss, s1, s2, s3]

/-- Witness for the amended C1 statement at the concrete two-header
document used in the counterexample. -/
theorem iter_ass_stale_text_index_witness :
    (("Format:".toList).isPrefixOf
        (pyStrip ("Format: Layer, Start, End, Text".toList)) = true) ∧
    ((parseFormatFields (pyStrip ("Format: Layer, Start, End, Text".toList))).contains
        ("Text".toList) = true) ∧
    ((parseFormatFields (pyStrip ("Format: Layer, Start, End, Text".toList))).indexOf
        ("Text".toList) = 3) ∧
    (("Format:".toList).isPrefixOf
        (pyStrip ("Format: A, B, C, D, E".toList)) = true) ∧
    ((parseFormatFields (pyStrip ("Format: A, B, C, D, E".toList))).contains
        ("Text".toList) = false) ∧
    ((parseFormatFields (pyStrip ("Format: A, B, C, D, E".toList))).length = 5) ∧
    (5 ≠ 0) ∧
    (("Dialogue:".toList).isPrefixOf
        (pyStrip ("Dialogue: 1,2,3,4,5,6,7".toList)) = true) ∧
    (3 < (pySplitMax ',' 4
        (dialoguePayload (pyStrip ("Dialogue: 1,2,3,4,5,6,7".toList)))).length) ∧
    iter_ass_lines [("Format: Layer, Start, End, Text".toList),
        ("Format: A, B, C, D, E".toList), ("Dialogue: 1,2,3,4,5,6,7".toList)]
      = [cleanupAssText ((pySplitMax ',' 4
          (dialoguePayload (pyStrip ("Dialogue: 1,2,3,4,5,6,7".toList)))).getD 3 [])] :=
  ⟨by decide, by decide, by decide, by decide, by decide, by decide, by decide,
    by decide, by decide,
    iter_ass_stale_text_index ("Format: Layer, Start, End, Text".toList)
      ("Format: A, B, C, D, E".toList) ("Dialogue: 1,2,3,4,5,6,7".toList) 3 5
      (by decide) (by decide) (by decide) (by decide) (by decide) (by decide)
      (by decide) (by decide) (by decide)⟩
